import Mathlib

/-!
Verification of the NN-CLI concurrent training-data pipeline.

This file shallowly embeds the augmentation planner, the asynchronous
batch provider (with its prefetch worker thread modelled as an interleaved
transition system at mutex granularity), and the parallel gradient
accumulator of the NN-CLI repository, and proves or refutes the frozen
claims about them.

Sources embedded:
* `NN-CLI_DataLoader.cpp` : `loadManifest` / `loadFromMemory` (entry
  initialization), `planAugmentation`, `loadBatch`, and the provider
  returned by `makeSampleProvider` together with its worker thread.
* `ANN_CoreCPU.hpp` : the per-worker gradient accumulation / merge
  discipline (declarations only in the repository; the merge discipline is
  modelled from the specification).

Modelling conventions:
* C++ `float` values appearing in sample output vectors are embedded as
  exact rationals `ℚ`; the claims under consideration only compare and
  order these values.
* `std::mt19937` / `std::uniform_int_distribution` draws are abstracted as
  an arbitrary stream `rng : Nat → Nat` reduced modulo the distribution
  bound; every claim proved about the planner holds for every stream, and
  the source seeds the generator with the constant `42`, so the stream
  depends on nothing but that constant.
-/

namespace NNCLI

/-! ## Data model: augmented entries and the loader state

`AugmentedEntry` mirrors the C++ struct of the same name
(`NN-CLI_DataLoader.hpp`, lines 37-40). -/

structure AugmentedEntry where
  sourceIndex : Nat
  augmented : Bool
deriving DecidableEq, Repr

/-- The part of `DataLoader`'s state that the planner claims depend on:
`outputs i` is the expected-output vector of original sample `i`
(`manifest[i].output` on the JSON path, `sampleOutput(memorySamples[i])` on
the memory path — `planAugmentation` reads exactly this vector on either
path), and `entries` is the expanded entry list. -/
structure LoaderState where
  outputs : List (List ℚ)
  entries : List AugmentedEntry
deriving DecidableEq

/-- Entry initialization shared by `loadManifest` (lines 69-73) and
`loadFromMemory` (lines 90-94): a 1:1 unaugmented mapping
`entries.push_back({i, false})` for every original index `i`. -/
def initEntries (n : Nat) : List AugmentedEntry :=
  (List.range n).map (fun i => ⟨i, false⟩)

/-- State after `loadManifest` or `loadFromMemory`: the original samples'
output vectors plus the 1:1 entry list. -/
def loadFromMemory (outputs : List (List ℚ)) : LoaderState :=
  ⟨outputs, initEntries outputs.length⟩

/-! ## The augmentation planner (`planAugmentation`, lines 105-158) -/

/-- Loop of `std::max_element`: the iterator moves only on a strictly
greater element (`if (*largest < *first)`), so the first maximum wins. -/
def argmaxGo : List ℚ → ℚ → Nat → Nat → Nat
  | [], _, best, _ => best
  | y :: ys, m, best, pos =>
      if m < y then argmaxGo ys y pos (pos + 1) else argmaxGo ys m best (pos + 1)

/-- `getClassIndex` (lines 112-115): index of the first maximum of the
output vector; `0` for an empty vector (`max_element` returns `end`). -/
def getClassIndex : List ℚ → Nat
  | [] => 0
  | x :: xs => argmaxGo xs x 0 1

/-- The original-sample indices belonging to class `cls`
(`classIndices[cls]`, built by the loop at lines 117-124; indices are
pushed in increasing order). -/
def classIndices (outputs : List (List ℚ)) (cls : Nat) : List Nat :=
  (List.range outputs.length).filter (fun i => getClassIndex (outputs.getD i []) == cls)

/-- An exclusive upper bound on every class index that can occur:
`getClassIndex o < o.length + 1` for every output vector `o`. -/
def maxClassBound (outputs : List (List ℚ)) : Nat :=
  (outputs.map List.length).foldr max 0 + 1

/-- The keys of the `std::map<ulong, std::vector<ulong>> classIndices`, in
the order the map iterates them: ascending, restricted to classes that
received at least one index. -/
def classKeys (outputs : List (List ℚ)) : List Nat :=
  (List.range (maxClassBound outputs)).filter (fun cls => !(classIndices outputs cls).isEmpty)

/-- `maxClassCount` (lines 126-128): the largest class size observed. -/
def maxClassCount (outputs : List (List ℚ)) : Nat :=
  (classKeys outputs).foldl (fun m cls => max m (classIndices outputs cls).length) 0

/-- The inner generation loop for one class (lines 148-152): `toGen` draws
with replacement from `indices`; draw number `ctr + i` of the plan's
generator picks `indices[dist(rng)]`, embedded as
`indices[rng (ctr + i) % indices.length]`. -/
def genForClass (rng : Nat → Nat) (ctr : Nat) (indices : List Nat) (toGen : Nat) :
    List AugmentedEntry :=
  (List.range toGen).map (fun i => ⟨indices.getD (rng (ctr + i) % indices.length) 0, true⟩)

/-- The per-class loop of `planAugmentation` (lines 132-153), iterating the
class keys in map order and threading the generator's draw counter. -/
def planExtraGo (rng : Nat → Nat) (outputs : List (List ℚ)) (factor : Nat) (balance : Bool)
    (maxCnt : Nat) : List Nat → Nat → List AugmentedEntry
  | [], _ => []
  | cls :: rest, ctr =>
      let indices := classIndices outputs cls
      let currentCount := indices.length
      let t0 := if factor > 0 then currentCount * factor else currentCount
      let target := if balance then max t0 (if factor > 0 then maxCnt * factor else maxCnt) else t0
      let toGen := target - currentCount
      genForClass rng ctr indices toGen ++
        planExtraGo rng outputs factor balance maxCnt rest (ctr + toGen)

/-- `planAugmentation(augmentationFactor, balanceAugmentation)`
(lines 105-158).  The early returns at lines 108-109 leave the state
unchanged; otherwise synthetic entries are appended to `entries`.
(`targetCount > currentCount ? targetCount - currentCount : 0` is exactly
truncated `Nat` subtraction.) -/
def planAugmentation (rng : Nat → Nat) (st : LoaderState) (augmentationFactor : Nat)
    (balanceAugmentation : Bool) : LoaderState :=
  if augmentationFactor = 0 ∧ balanceAugmentation = false then st
  else if st.outputs.length = 0 then st
  else { st with
         entries := st.entries ++
           planExtraGo rng st.outputs augmentationFactor balanceAugmentation
             (maxClassCount st.outputs) (classKeys st.outputs) 0 }

/-- Number of entries of argmax-class `cls` with augmentation flag `aug`
in the expanded entry list. -/
def countClass (st : LoaderState) (cls : Nat) (aug : Bool) : Nat :=
  (st.entries.filter
    (fun e => getClassIndex (st.outputs.getD e.sourceIndex []) == cls && e.augmented == aug)).length

/-- The canonical manifest with argmax-decoded class counts
`{class 0 : 10, class 1 : 2, class 2 : 2}`. -/
def outputs14 : List (List ℚ) :=
  List.replicate 10 [1, 0, 0] ++ List.replicate 2 [0, 1, 0] ++ List.replicate 2 [0, 0, 1]

/-! ## The asynchronous sample provider (`makeSampleProvider`, lines 198-287)

The provider callback and its persistent worker thread share a
`PrefetchState` (flags `hasRequest` / `hasResult`, slots `requestIndices` /
`result`, one mutex, two condition variables).  We embed the system as an
interleaved transition system at mutex granularity: every mutex-protected
block of either thread is one atomic step, and the worker's expensive
`loadBatch` call (performed outside the lock, lines 224-225) makes the
worker's dequeue step and its publish step two *separate* atomic steps.

A schedule decides how many worker steps run between the caller's atomic
blocks.  Worker steps are enabled-deterministic (the worker either has a
dequeued batch to publish, or dequeues the pending request, or blocks), so
a schedule is just a step count at each interleaving point.

Sample materialization `loadSample(idx, rng, transforms, prob)` is
abstracted as a function `load : Nat → S` from entry index to sample: the
claims about the provider concern *which entry indices* are materialized
into each returned batch, and `load` is applied identically on the
synchronous path and on the worker path.  The `shutdown` flag and the
destructor are not modelled: no claim concerns provider destruction. -/

/-- What the worker thread is doing: blocked on `workerCV.wait`, or
between its two lock regions, materializing a dequeued request. -/
inductive WorkerPhase where
  | waiting : WorkerPhase
  | loading : List Nat → WorkerPhase
deriving DecidableEq, Repr

/-- The shared `PrefetchState` fields (flags and slots) together with the
worker thread's position. -/
structure SysState (S : Type) where
  hasRequest : Bool
  requestIndices : List Nat
  hasResult : Bool
  result : List S
  worker : WorkerPhase
deriving DecidableEq, Repr

/-- Initial state: flags clear, slots empty, worker blocked (the state a
fresh `makeSampleProvider` call creates). -/
def initState (S : Type) : SysState S :=
  ⟨false, [], false, [], WorkerPhase.waiting⟩

/-- `DataLoader::loadBatch` (lines 182-196): materialize the given entry
indices in order. -/
def loadBatch {S : Type} (load : Nat → S) (entryIndices : List Nat) : List S :=
  entryIndices.map load

/-- The half-open slice `l[a:b)` (`std::vector(first + a, first + b)`). -/
def slice (l : List Nat) (a b : Nat) : List Nat :=
  (l.drop a).take (b - a)

/-- One atomic step of the worker loop (lines 210-235): publish a loaded
batch (second lock region, lines 227-231), else dequeue a pending request
(first lock region, lines 214-222), else keep blocking. -/
def workerStep {S : Type} (load : Nat → S) (s : SysState S) : SysState S :=
  match s.worker with
  | WorkerPhase.loading idx =>
      { s with result := loadBatch load idx, hasResult := true, worker := WorkerPhase.waiting }
  | WorkerPhase.waiting =>
      if s.hasRequest then
        { s with worker := WorkerPhase.loading s.requestIndices,
                 requestIndices := [], hasRequest := false }
      else s

/-- The caller blocking on `callerCV.wait(lock, [..]{ return hasResult; })`
(line 258): worker steps run until a result is published.  Two steps always
suffice when a request is pending or a load is in flight. -/
def waitResult {S : Type} (load : Nat → S) (s : SysState S) : SysState S :=
  if s.hasResult then s
  else
    let s₁ := workerStep load s
    if s₁.hasResult then s₁ else workerStep load s₁

/-- The provider's first lock region (lines 249-262): take a ready result,
else wait out a pending request and take its result, else nothing. -/
def consume {S : Type} (load : Nat → S) (s : SysState S) : List S × SysState S :=
  if s.hasResult then (s.result, { s with hasResult := false, result := [] })
  else if s.hasRequest then
    let s₁ := waitResult load s
    (s₁.result, { s₁ with hasResult := false, result := [] })
  else ([], s)

/-- One call of the provider lambda (lines 240-286).  `n₁` worker steps run
before the caller's first lock region and `n₂` between its two lock regions
(the synchronous fallback at lines 265-268 runs unlocked); worker steps
after the final lock region belong to the next call's `n₁`. -/
def getBatch {S : Type} (load : Nat → S) (s₀ : SysState S) (sampleIndices : List Nat)
    (batchSize batchIndex n₁ n₂ : Nat) : List S × SysState S :=
  let s := (workerStep load)^[n₁] s₀
  let numSamples := sampleIndices.length
  let start := batchIndex * batchSize
  let stop := min (start + batchSize) numSamples
  let r := consume load s
  let s₂ := (workerStep load)^[n₂] r.2
  let batch :=
    if r.1.isEmpty ∧ start < numSamples then loadBatch load (slice sampleIndices start stop)
    else r.1
  let nextStart := stop
  if nextStart < numSamples then
    (batch, { s₂ with
              requestIndices := slice sampleIndices nextStart (min (nextStart + batchSize) numSamples),
              hasRequest := true })
  else (batch, s₂)

/-- Drive one epoch: call the provider with `batchIndex = k, k+1, ...` in
order, one schedule pair per call, collecting the returned batches. -/
def runEpoch {S : Type} (load : Nat → S) (sampleIndices : List Nat) (batchSize : Nat) :
    List (Nat × Nat) → Nat → SysState S → List (List S) × SysState S
  | [], _, s => ([], s)
  | sched :: rest, k, s =>
      let r := getBatch load s sampleIndices batchSize k sched.1 sched.2
      let rr := runEpoch load sampleIndices batchSize rest (k + 1) r.2
      (r.1 :: rr.1, rr.2)

/-- States of the prefetch protocol reachable by the single worker thread
interleaved with one caller thread driving `getBatch` sequentially. -/
inductive Reach {S : Type} (load : Nat → S) : SysState S → Prop where
  | init : Reach load (initState S)
  | worker {s : SysState S} : Reach load s → Reach load (workerStep load s)
  | call {s : SysState S} (sampleIndices : List Nat) (batchSize batchIndex n₁ n₂ : Nat) :
      Reach load s → Reach load (getBatch load s sampleIndices batchSize batchIndex n₁ n₂).2

/-! ## Loader reachability and entry-list well-formedness (for C7) -/

/-- Loader states reachable by `loadManifest`/`loadFromMemory` (both end in
the same 1:1 entry initialization) followed by any number of
`planAugmentation` calls. -/
inductive LoaderReachable : LoaderState → Prop where
  | load (outputs : List (List ℚ)) : LoaderReachable (loadFromMemory outputs)
  | plan (rng : Nat → Nat) (factor : Nat) (balance : Bool) {st : LoaderState} :
      LoaderReachable st → LoaderReachable (planAugmentation rng st factor balance)

/-- The entry-list invariant: every `sourceIndex` points into the original
sample list, the list starts with the original entries in original order,
and everything after them is synthetic. -/
def entriesWellFormed (st : LoaderState) : Prop :=
  (∀ e ∈ st.entries, e.sourceIndex < st.outputs.length) ∧
  st.entries.take st.outputs.length = initEntries st.outputs.length ∧
  ∀ e ∈ st.entries.drop st.outputs.length, e.augmented = true

/-! ## The parallel gradient accumulator (for C9)

Modelled from the spec: the repository holds only the declarations of this
component (`ANN_CoreCPU.hpp`, `SampleWorker` with its thread-local
`accum_dCost_dWeights`/`accum_dCost_dBiases` and `CoreCPU`'s
`resetWorkerAccumulators`/`accumulateToWorker`/`mergeWorkerAccumulators`
under one `accumulatorMutex`); the definitions of these functions are not
in the repository.  Following spec §4.3, a batch is partitioned into
contiguous chunks, each worker sums its chunk's per-sample gradients into a
private accumulator, and each private accumulator is merged into the shared
accumulator exactly once.  A gradient is a flattened parameter vector of
exact field values (`ℚ`), pointwise-added. -/

/-- Pointwise sum of two gradient vectors. -/
def addVec (a b : List ℚ) : List ℚ :=
  List.zipWith (· + ·) a b

/-- The zeroed accumulator for `L` parameters (`resetAccumulators` /
`resetWorkerAccumulators`). -/
def zeros (L : Nat) : List ℚ :=
  List.replicate L 0

/-- Single-worker reference: accumulate every per-sample gradient of the
batch into the shared accumulator in batch order. -/
def accumulateGrads (L : Nat) (grads : List (List ℚ)) : List ℚ :=
  grads.foldl addVec (zeros L)

/-- N-worker run: worker `w` accumulates its chunk locally
(`accumulateToWorker`), and each local accumulator is merged into the
shared accumulator exactly once (`mergeWorkerAccumulators`), in worker
order. -/
def mergeWorkerAccumulators (L : Nat) (chunks : List (List (List ℚ))) : List ℚ :=
  chunks.foldl (fun acc c => addVec acc (accumulateGrads L c)) (zeros L)

/-! ## Concrete provider runs used by the claims -/

/-- A reachable both-flags-true state (for C4): with entry indices
`[0..8]` and batch size 3, call 0 runs with a quiescent worker; before call
1 the worker dequeues call 0's prefetch request and is still materializing
it throughout call 1, so call 1 finds both flags false, loads its range
synchronously and submits a new request; the worker then publishes the old
result while the new request is still queued. -/
def sBad : SysState Nat :=
  workerStep (fun i => i)
    (runEpoch (fun i => i) [0, 1, 2, 3, 4, 5, 6, 7, 8] 3 [(0, 0), (1, 0)] 0 (initState Nat)).2

/-- The prefetch state left behind by a fully consumed in-order epoch over
`[0..5]` with batch size 3, under the schedule where the worker dequeues
the only prefetch request before call 1 and is still materializing it when
the epoch ends: both flags are clear and no request was issued by the last
call, but the load of `[3,4,5]` (the epoch's tail) is in flight. -/
def epochAEnd : SysState Nat :=
  (runEpoch (fun i => i) [0, 1, 2, 3, 4, 5] 3 [(0, 0), (1, 0)] 0 (initState Nat)).2

/-- A concrete reachable loader state for the C7 witness: a three-sample
two-class manifest, balanced. -/
def stBalanced : LoaderState :=
  planAugmentation (fun _ => 0) (loadFromMemory [[1, 0], [0, 1], [0, 1]]) 0 true

/-! ## Theorems -/

theorem workerStep_quiescent {S : Type} (load : Nat → S) (s : SysState S)
    (hreq : s.hasRequest = false) (hw : s.worker = WorkerPhase.waiting) :
    workerStep load s = s := by
  unfold workerStep
  rw [hw, hreq]
  rfl

theorem workerStep_iterate_quiescent {S : Type} (load : Nat → S) (s : SysState S)
    (hreq : s.hasRequest = false) (hw : s.worker = WorkerPhase.waiting) (n : Nat) :
    (workerStep load)^[n] s = s :=
  Function.iterate_fixed (workerStep_quiescent load s hreq hw) n

/-- C10: a `getBatch` call whose start offset `batchIndex * batchSize` is
at or past the end of the shuffled index list, made while the prefetch
machinery is idle (no pending request, no ready result, worker blocked),
returns an empty batch, leaves the state untouched, and issues no new
prefetch request — it neither fails nor blocks ("pending" is read as
covering the whole life of a request, from submission to publication, so
an idle worker is part of the hypothesis). -/
theorem getBatch_out_of_range_empty {S : Type} (load : Nat → S) (s : SysState S)
    (sampleIndices : List Nat) (batchSize batchIndex n₁ n₂ : Nat)
    (hreq : s.hasRequest = false) (hres : s.hasResult = false)
    (hw : s.worker = WorkerPhase.waiting)
    (hk : sampleIndices.length ≤ batchIndex * batchSize) :
    getBatch load s sampleIndices batchSize batchIndex n₁ n₂ = ([], s) := by
  have hstop : min (batchIndex * batchSize + batchSize) sampleIndices.length
      = sampleIndices.length :=
    Nat.min_eq_right (le_trans hk (Nat.le_add_right _ _))
  simp only [getBatch, consume, workerStep_iterate_quiescent load s hreq hw,
    hreq, hres, Bool.false_eq_true, if_false, List.isEmpty_nil, hstop,
    Nat.not_lt.mpr hk, lt_irrefl, and_false, false_and]

theorem getBatch_out_of_range_empty_witness :
    (initState Nat).hasRequest = false ∧ (initState Nat).hasResult = false ∧
    (initState Nat).worker = WorkerPhase.waiting ∧ ([7, 8] : List Nat).length ≤ 5 * 1 ∧
    getBatch (fun i => i) (initState Nat) [7, 8] 1 5 3 2 = ([], initState Nat) :=
  ⟨rfl, rfl, rfl, by decide,
    getBatch_out_of_range_empty (fun i => i) (initState Nat) [7, 8] 1 5 3 2
      rfl rfl rfl (by decide)⟩

/-- C1: refuted on the code — the claim asserts that in-order calls
`batchIndex = 0, 1, 2` over `shuffledIndices = [0..8]` with batch size 3
return exactly the slices `[0,1,2]`, `[3,4,5]`, `[6,7,8]`, concatenating
to the permutation.  Under the legal schedule in which the worker dequeues
call 0's prefetch request before call 1 arrives and publishes its result
only after call 1 returns, call 1 finds both flags false (the code's
`hasRequest` check misses a dequeued, in-flight request), re-loads its
range synchronously and submits a new request; call 2 then consumes the
stale published result, so batch 2 repeats the samples of `[3,4,5]` and
the epoch concatenation is not the permutation. -/
theorem provider_epoch_duplicate_batch :
    (runEpoch (fun i => i) [0, 1, 2, 3, 4, 5, 6, 7, 8] 3
        [(0, 0), (1, 0), (1, 0)] 0 (initState Nat)).1
      = [[0, 1, 2], [3, 4, 5], [3, 4, 5]] ∧
    loadBatch (fun i => i) (slice [0, 1, 2, 3, 4, 5, 6, 7, 8] 6 9) = [6, 7, 8] ∧
    ((runEpoch (fun i => i) [0, 1, 2, 3, 4, 5, 6, 7, 8] 3
        [(0, 0), (1, 0), (1, 0)] 0 (initState Nat)).1).flatten
      ≠ [0, 1, 2, 3, 4, 5, 6, 7, 8] := by
  refine ⟨by decide, by decide, by decide⟩

/-- C2: refuted on the code — after the in-order epoch over
`A = [0..5]` (batch size 3) is fully consumed with correct batches, the
last call's `end` reached `A`'s length and it issued no new prefetch
request (`epochAEnd.hasRequest = false`), exactly the claim's premise.
Yet under the schedule where the worker was still materializing call 0's
request when the epoch ended, that result is published before the new
epoch's first call, and `getBatch(B, 3, 0)` with `B = [5,4,3,2,1,0]`
returns `[3,4,5]` — a leftover prefetched batch from `A`'s tail — instead
of `B`'s own prefix `[5,4,3]`. -/
theorem provider_epoch_leftover_served :
    (runEpoch (fun i => i) [0, 1, 2, 3, 4, 5] 3 [(0, 0), (1, 0)] 0 (initState Nat)).1
      = [[0, 1, 2], [3, 4, 5]] ∧
    epochAEnd.hasRequest = false ∧ epochAEnd.hasResult = false ∧
    (getBatch (fun i => i) epochAEnd [5, 4, 3, 2, 1, 0] 3 0 1 0).1 = [3, 4, 5] ∧
    loadBatch (fun i => i) (slice [5, 4, 3, 2, 1, 0] 0 3) = [5, 4, 3] ∧
    (getBatch (fun i => i) epochAEnd [5, 4, 3, 2, 1, 0] 3 0 1 0).1
      ≠ loadBatch (fun i => i) (slice [5, 4, 3, 2, 1, 0] 0 3) := by
  refine ⟨by decide, by decide, by decide, by decide, by decide, by decide⟩

/-- C3: refuted on the code — with `shuffledIndices = [0..5]` and batch
size 2, under the legal schedule where the worker dequeues each prefetch
request just before the next call arrives and publishes its result one
call late, the in-order call with `batchIndex = 2` returns `[2, 3]`, which
is not the synchronous materialization `loadBatch` of its own range
`[4, 5]`: the prefetch concurrency altered batch content, not just
timing. -/
theorem provider_async_diverges_from_sync :
    (runEpoch (fun i => i) [0, 1, 2, 3, 4, 5] 2 [(0, 0), (1, 0), (1, 0)] 0
        (initState Nat)).1.getD 2 []
      = [2, 3] ∧
    loadBatch (fun i => i) (slice [0, 1, 2, 3, 4, 5] 4 6) = [4, 5] ∧
    (runEpoch (fun i => i) [0, 1, 2, 3, 4, 5] 2 [(0, 0), (1, 0), (1, 0)] 0
        (initState Nat)).1.getD 2 []
      ≠ loadBatch (fun i => i) (slice [0, 1, 2, 3, 4, 5] 4 6) := by
  refine ⟨by decide, by decide, by decide⟩

/-- C4: refuted on the code — `sBad` is reachable with one caller thread
driving `getBatch` sequentially (batch indices 0 then 1 over `[0..8]`,
batch size 3) interleaved with the single worker thread, and it has
`hasRequest = true` and `hasResult = true` simultaneously: the worker
clears `hasRequest` already when it dequeues, so a call arriving during
the in-flight load sees an idle state, submits a fresh request, and the
worker's subsequent publication makes both flags true.  (The flag
mutations themselves are all under the one mutex — the failing part of
the claim is the at-most-one-of invariant.) -/
theorem prefetch_flags_both_true_reachable :
    Reach (fun i => i) sBad ∧ sBad.hasRequest = true ∧ sBad.hasResult = true := by
  refine ⟨?_, by decide, by decide⟩
  exact Reach.worker
    (Reach.call [0, 1, 2, 3, 4, 5, 6, 7, 8] 3 1 1 0
      (Reach.call [0, 1, 2, 3, 4, 5, 6, 7, 8] 3 0 0 0 Reach.init))

theorem getD_mod_mem (l : List Nat) (x : Nat) (h : l ≠ []) :
    l.getD (x % l.length) 0 ∈ l := by
  have hlen : x % l.length < l.length := Nat.mod_lt _ (List.length_pos.mpr h)
  rw [List.getD_eq_getElem l 0 hlen]
  exact List.getElem_mem hlen

theorem mem_genForClass {rng : Nat → Nat} {ctr : Nat} {indices : List Nat} {toGen : Nat}
    {e : AugmentedEntry} (hne : indices ≠ [])
    (he : e ∈ genForClass rng ctr indices toGen) :
    e.augmented = true ∧ e.sourceIndex ∈ indices := by
  obtain ⟨i, _, rfl⟩ := List.mem_map.mp he
  exact ⟨rfl, getD_mod_mem indices _ hne⟩

theorem length_genForClass (rng : Nat → Nat) (ctr : Nat) (indices : List Nat) (toGen : Nat) :
    (genForClass rng ctr indices toGen).length = toGen := by
  simp [genForClass]

theorem filter_genForClass_all {rng : Nat → Nat} {ctr : Nat} {indices : List Nat}
    {toGen : Nat} {p : AugmentedEntry → Bool}
    (hne : indices ≠ []) (h : ∀ j ∈ indices, p ⟨j, true⟩ = true) :
    ((genForClass rng ctr indices toGen).filter p).length = toGen := by
  rw [List.filter_eq_self.mpr, length_genForClass]
  intro e he
  obtain ⟨i, _, rfl⟩ := List.mem_map.mp he
  exact h _ (getD_mod_mem indices _ hne)

theorem filter_genForClass_none {rng : Nat → Nat} {ctr : Nat} {indices : List Nat}
    {toGen : Nat} {p : AugmentedEntry → Bool}
    (hne : indices ≠ []) (h : ∀ j ∈ indices, p ⟨j, true⟩ = false) :
    ((genForClass rng ctr indices toGen).filter p).length = 0 := by
  rw [List.filter_eq_nil_iff.mpr]
  · rfl
  · intro e he
    obtain ⟨i, _, rfl⟩ := List.mem_map.mp he
    intro hp
    rw [h _ (getD_mod_mem indices (rng (ctr + i)) hne)] at hp
    exact Bool.false_ne_true hp

theorem countClass_append (outputs : List (List ℚ)) (A B : List AugmentedEntry)
    (cls : Nat) (aug : Bool) :
    countClass ⟨outputs, A ++ B⟩ cls aug
      = countClass ⟨outputs, A⟩ cls aug + countClass ⟨outputs, B⟩ cls aug := by
  simp [countClass, List.filter_append]

theorem beq_first_and_true {a cls : Nat} (h : a = cls) :
    ((a == cls) && (true == true)) = true := by
  simp [h]

theorem beq_first_and_false {a cls : Nat} (q : Bool) (h : a ≠ cls) :
    ((a == cls) && q) = false := by
  simp [h]

theorem and_beq_true_false (q : Bool) : (q && (true == false)) = false := by
  simp

theorem countClass_gen_all (outputs : List (List ℚ)) (rng : Nat → Nat)
    (ctr : Nat) (indices : List Nat) (toGen cls : Nat) (hne : indices ≠ [])
    (h : ∀ j ∈ indices, getClassIndex (outputs.getD j []) = cls) :
    countClass ⟨outputs, genForClass rng ctr indices toGen⟩ cls true = toGen := by
  unfold countClass
  exact filter_genForClass_all hne (fun j hj => beq_first_and_true (h j hj))

theorem countClass_gen_none_cls (outputs : List (List ℚ)) (rng : Nat → Nat)
    (ctr : Nat) (indices : List Nat) (toGen cls : Nat) (aug : Bool) (hne : indices ≠ [])
    (h : ∀ j ∈ indices, getClassIndex (outputs.getD j []) ≠ cls) :
    countClass ⟨outputs, genForClass rng ctr indices toGen⟩ cls aug = 0 := by
  unfold countClass
  exact filter_genForClass_none hne (fun j hj => beq_first_and_false _ (h j hj))

theorem countClass_gen_false (outputs : List (List ℚ)) (rng : Nat → Nat)
    (ctr : Nat) (indices : List Nat) (toGen cls : Nat) (hne : indices ≠ []) :
    countClass ⟨outputs, genForClass rng ctr indices toGen⟩ cls false = 0 := by
  unfold countClass
  exact filter_genForClass_none hne (fun j _ => and_beq_true_false _)

theorem genForClass_zero (rng : Nat → Nat) (ctr : Nat) (indices : List Nat) :
    genForClass rng ctr indices 0 = [] := by
  simp [genForClass]

theorem outputs14_length : outputs14.length = 14 := by decide

theorem classKeys14 : classKeys outputs14 = [0, 1, 2] := by decide

theorem classIndices14_0 : classIndices outputs14 0 = [0, 1, 2, 3, 4, 5, 6, 7, 8, 9] := by
  decide

theorem classIndices14_1 : classIndices outputs14 1 = [10, 11] := by decide

theorem classIndices14_2 : classIndices outputs14 2 = [12, 13] := by decide

theorem maxClassCount14 : maxClassCount outputs14 = 10 := by decide

theorem plan14_balance (rng : Nat → Nat) :
    planAugmentation rng (loadFromMemory outputs14) 0 true =
      ⟨outputs14, initEntries 14 ++
        (genForClass rng 0 [10, 11] 8 ++ genForClass rng 8 [12, 13] 8)⟩ := by
  unfold planAugmentation
  rw [if_neg (by simp)]
  rw [if_neg (by rw [loadFromMemory]; simp [outputs14_length])]
  simp only [loadFromMemory, classKeys14, maxClassCount14, outputs14_length]
  norm_num [planExtraGo, classIndices14_0, classIndices14_1, classIndices14_2,
    genForClass_zero]

theorem plan14_double (rng : Nat → Nat) :
    planAugmentation rng (loadFromMemory outputs14) 2 true =
      ⟨outputs14, initEntries 14 ++
        (genForClass rng 0 [0, 1, 2, 3, 4, 5, 6, 7, 8, 9] 10 ++
          (genForClass rng 10 [10, 11] 18 ++ genForClass rng 28 [12, 13] 18))⟩ := by
  unfold planAugmentation
  rw [if_neg (by simp)]
  rw [if_neg (by rw [loadFromMemory]; simp [outputs14_length])]
  simp only [loadFromMemory, classKeys14, maxClassCount14, outputs14_length]
  norm_num [planExtraGo, classIndices14_0, classIndices14_1, classIndices14_2]

/-- C5: on the canonical manifest with argmax class counts
`{0 ↦ 10, 1 ↦ 2, 2 ↦ 2}`, `planAugmentation` with `balanceClasses = true`
and `augmentationFactor = 0` yields exactly 10 entries of class 0 (all
original, none synthetic) and 10 entries each of classes 1 and 2 (2
original plus 8 synthetic); with `augmentationFactor = 2` every class's
target doubles to 20 (class 0: 10 original + 10 synthetic, classes 1 and
2: 2 original + 18 synthetic each).  Holds for every draw stream `rng` of
the plan's generator. -/
theorem planAugmentation_class_balance (rng : Nat → Nat) :
    (countClass (planAugmentation rng (loadFromMemory outputs14) 0 true) 0 false = 10 ∧
     countClass (planAugmentation rng (loadFromMemory outputs14) 0 true) 0 true = 0 ∧
     countClass (planAugmentation rng (loadFromMemory outputs14) 0 true) 1 false = 2 ∧
     countClass (planAugmentation rng (loadFromMemory outputs14) 0 true) 1 true = 8 ∧
     countClass (planAugmentation rng (loadFromMemory outputs14) 0 true) 2 false = 2 ∧
     countClass (planAugmentation rng (loadFromMemory outputs14) 0 true) 2 true = 8) ∧
    (countClass (planAugmentation rng (loadFromMemory outputs14) 2 true) 0 false = 10 ∧
     countClass (planAugmentation rng (loadFromMemory outputs14) 2 true) 0 true = 10 ∧
     countClass (planAugmentation rng (loadFromMemory outputs14) 2 true) 1 false = 2 ∧
     countClass (planAugmentation rng (loadFromMemory outputs14) 2 true) 1 true = 18 ∧
     countClass (planAugmentation rng (loadFromMemory outputs14) 2 true) 2 false = 2 ∧
     countClass (planAugmentation rng (loadFromMemory outputs14) 2 true) 2 true = 18) := by
  rw [plan14_balance rng, plan14_double rng]
  simp only [countClass_append]
  refine ⟨⟨?_, ?_, ?_, ?_, ?_, ?_⟩, ?_, ?_, ?_, ?_, ?_, ?_⟩
  all_goals
    simp (disch := decide) only [countClass_gen_all, countClass_gen_none_cls,
      countClass_gen_false]
  all_goals decide

/-- C6: the augmentation plan is deterministic.  In the source the plan's
generator is `std::mt19937 rng(42)` (line 130, commented "deterministic
augmentation plan") — a constant seed, not wall-clock or thread id — so
two runs consume one and the same draw stream `rng`; the plan reads
nothing else beyond its explicit inputs, hence equal loader states and
equal arguments yield byte-identical expanded entry lists (same
`sourceIndex` values in the same order with the same `augmented`
flags). -/
theorem planAugmentation_deterministic (rng : Nat → Nat) (st₁ st₂ : LoaderState)
    (factor₁ factor₂ : Nat) (balance₁ balance₂ : Bool)
    (hst : st₁ = st₂) (hf : factor₁ = factor₂) (hb : balance₁ = balance₂) :
    (planAugmentation rng st₁ factor₁ balance₁).entries
      = (planAugmentation rng st₂ factor₂ balance₂).entries := by
  rw [hst, hf, hb]

theorem planAugmentation_deterministic_witness :
    (planAugmentation (fun k => k) (loadFromMemory outputs14) 2 true).entries
      = (planAugmentation (fun k => k) (loadFromMemory outputs14) 2 true).entries :=
  planAugmentation_deterministic (fun k => k) (loadFromMemory outputs14)
    (loadFromMemory outputs14) 2 2 true true rfl rfl rfl

theorem mem_classIndices_lt {outputs : List (List ℚ)} {cls i : Nat}
    (h : i ∈ classIndices outputs cls) : i < outputs.length :=
  List.mem_range.mp (List.mem_filter.mp h).1

theorem classKeys_nonempty {outputs : List (List ℚ)} {cls : Nat}
    (h : cls ∈ classKeys outputs) : classIndices outputs cls ≠ [] := by
  have h2 := (List.mem_filter.mp h).2
  intro hnil
  rw [hnil] at h2
  simp at h2

theorem mem_planExtraGo {rng : Nat → Nat} {outputs : List (List ℚ)} {factor : Nat}
    {balance : Bool} {maxCnt : Nat} :
    ∀ (keys : List Nat) (ctr : Nat) {e : AugmentedEntry},
      (∀ cls ∈ keys, classIndices outputs cls ≠ []) →
      e ∈ planExtraGo rng outputs factor balance maxCnt keys ctr →
      e.augmented = true ∧ e.sourceIndex < outputs.length := by
  intro keys
  induction keys with
  | nil => intro ctr e _ he; simp [planExtraGo] at he
  | cons cls rest ih =>
      intro ctr e hk he
      simp only [planExtraGo] at he
      rcases List.mem_append.mp he with h1 | h2
      · have hne := hk cls (List.mem_cons_self _ _)
        obtain ⟨ha, hm⟩ := mem_genForClass hne h1
        exact ⟨ha, mem_classIndices_lt hm⟩
      · exact ih _ (fun c hc => hk c (List.mem_cons_of_mem _ hc)) h2

theorem initEntries_length (n : Nat) : (initEntries n).length = n := by
  simp [initEntries]

/-- C7: in every loader state reachable by `loadManifest`/`loadFromMemory`
followed by `planAugmentation` calls, every entry's `sourceIndex` is
strictly below the original sample count (it never refers to another
augmented entry), and the list is the original 1:1 entries in original
order followed only by synthetic (`augmented = true`) entries. -/
theorem loader_entries_wellFormed (st : LoaderState) (h : LoaderReachable st) :
    entriesWellFormed st := by
  induction h with
  | load outputs =>
      refine ⟨?_, ?_, ?_⟩
      · intro e he
        obtain ⟨i, hi, rfl⟩ := List.mem_map.mp he
        simpa using List.mem_range.mp hi
      · show (initEntries outputs.length).take outputs.length = initEntries outputs.length
        exact List.take_of_length_le (le_of_eq (initEntries_length _))
      · show ∀ e ∈ (initEntries outputs.length).drop outputs.length, e.augmented = true
        rw [List.drop_eq_nil_of_le (le_of_eq (initEntries_length _))]
        simp
  | plan rng factor balance hreach ih =>
      obtain ⟨ih1, ih2, ih3⟩ := ih
      rename_i st'
      have hnE : st'.outputs.length ≤ st'.entries.length := by
        have hl := congrArg List.length ih2
        rw [List.length_take, initEntries_length] at hl
        omega
      unfold planAugmentation
      split
      · exact ⟨ih1, ih2, ih3⟩
      split
      · exact ⟨ih1, ih2, ih3⟩
      have hX : ∀ e ∈ planExtraGo rng st'.outputs factor balance
          (maxClassCount st'.outputs) (classKeys st'.outputs) 0,
          e.augmented = true ∧ e.sourceIndex < st'.outputs.length :=
        fun e he => mem_planExtraGo _ _ (fun c hc => classKeys_nonempty hc) he
      refine ⟨?_, ?_, ?_⟩
      · intro e he
        rcases List.mem_append.mp he with h1 | h2
        · exact ih1 e h1
        · exact (hX e h2).2
      · show (st'.entries ++ _).take st'.outputs.length = _
        rw [List.take_append_of_le_length hnE]
        exact ih2
      · show ∀ e ∈ (st'.entries ++ _).drop st'.outputs.length, e.augmented = true
        rw [List.drop_append_of_le_length hnE]
        intro e he
        rcases List.mem_append.mp he with h1 | h2
        · exact ih3 e h1
        · exact (hX e h2).1

theorem loader_entries_wellFormed_witness :
    LoaderReachable stBalanced ∧ entriesWellFormed stBalanced :=
  have hre : LoaderReachable stBalanced :=
    LoaderReachable.plan (fun _ => 0) 0 true (LoaderReachable.load [[1, 0], [0, 1], [0, 1]])
  ⟨hre, loader_entries_wellFormed stBalanced hre⟩

/-- C8: refuted on the code — `planAugmentation` on a zero-sized manifest
with augmentation requested (`augmentationFactor = 2, balanceClasses =
true`) does not reject anything: it returns normally with the loader state
unchanged (the early `return` at line 109), i.e. it proceeds silently
instead of raising a configuration error. -/
theorem planAugmentation_empty_silent :
    planAugmentation (fun _ => 0) (loadFromMemory []) 2 true = loadFromMemory [] := by
  decide

/-- C8 (amended): on a zero-sized manifest, `planAugmentation` is a silent
no-op for every augmentation request: it returns immediately with the
state unchanged and raises no error. -/
theorem planAugmentation_empty_noop (rng : Nat → Nat) (entries : List AugmentedEntry)
    (factor : Nat) (balance : Bool) :
    planAugmentation rng ⟨[], entries⟩ factor balance = ⟨[], entries⟩ := by
  unfold planAugmentation
  split
  · rfl
  · simp

theorem addVec_assoc (a b c : List ℚ) : addVec (addVec a b) c = addVec a (addVec b c) := by
  induction a generalizing b c with
  | nil => simp [addVec]
  | cons x xs ih =>
      cases b with
      | nil => simp [addVec]
      | cons y ys =>
          cases c with
          | nil => simp [addVec]
          | cons z zs =>
              have hih := ih ys zs
              simp only [addVec, List.zipWith_cons_cons] at hih ⊢
              rw [add_assoc, hih]

theorem addVec_zeros (a : List ℚ) (L : Nat) (h : a.length = L) :
    addVec a (zeros L) = a := by
  induction a generalizing L with
  | nil => simp [addVec]
  | cons x xs ih =>
      cases L with
      | zero => simp at h
      | succ n =>
          simp only [zeros, List.replicate_succ, addVec, List.zipWith_cons_cons, add_zero]
          rw [show List.zipWith (· + ·) xs (List.replicate n 0) = addVec xs (zeros n) from rfl]
          rw [ih n (by simpa using h)]

theorem foldl_addVec_hoist (c : List (List ℚ)) (a b : List ℚ) :
    c.foldl addVec (addVec a b) = addVec a (c.foldl addVec b) := by
  induction c generalizing b with
  | nil => rfl
  | cons g gs ih =>
      simp only [List.foldl_cons]
      rw [addVec_assoc, ih]

theorem foldl_addVec_length (c : List (List ℚ)) (init : List ℚ)
    (hc : ∀ g ∈ c, g.length = init.length) :
    (c.foldl addVec init).length = init.length := by
  induction c generalizing init with
  | nil => rfl
  | cons g gs ih =>
      have h1 : (addVec init g).length = init.length := by
        simp [addVec, hc g (List.mem_cons_self _ _)]
      rw [List.foldl_cons, ih (addVec init g)
        (fun g' hg' => by rw [h1]; exact hc g' (List.mem_cons_of_mem _ hg'))]
      exact h1

theorem mergeWorker_go (L : Nat) (chunks : List (List (List ℚ))) (init : List ℚ)
    (hinit : init.length = L) (hlen : ∀ g ∈ chunks.flatten, g.length = L) :
    chunks.foldl (fun acc c => addVec acc (accumulateGrads L c)) init
      = chunks.flatten.foldl addVec init := by
  induction chunks generalizing init with
  | nil => rfl
  | cons c cs ih =>
      simp only [List.foldl_cons, List.flatten_cons, List.foldl_append]
      have hc : ∀ g ∈ c, g.length = L :=
        fun g hg => hlen g (List.mem_append_left _ hg)
      have hstep : addVec init (accumulateGrads L c) = c.foldl addVec init := by
        rw [accumulateGrads, ← foldl_addVec_hoist, addVec_zeros init L hinit]
      rw [hstep]
      refine ih (c.foldl addVec init) ?_ ?_
      · rw [foldl_addVec_length c init (fun g hg => by rw [hinit]; exact hc g hg), hinit]
      · exact fun g hg => hlen g (List.mem_append_right _ hg)

/-- C9: gradient-merge equivalence, modelled from the spec (the repository
contains only the declarations of `SampleWorker` and `CoreCPU`'s
`resetWorkerAccumulators` / `accumulateToWorker` /
`mergeWorkerAccumulators`; the merge discipline is spec §4.3(b)).  For any
partition of a batch's per-sample gradients into contiguous
chunks (`chunks.flatten = grads`, one chunk per worker), the N-worker run
— each worker summing its whole chunk into a thread-local accumulator and
merging it into the shared accumulator exactly once — produces exactly the
single-worker total, because only the order of the exact-field additions
differs.  Exact equality implies equality within every tolerance. -/
theorem gradient_merge_equivalence (L : Nat) (chunks : List (List (List ℚ)))
    (grads : List (List ℚ)) (hjoin : chunks.flatten = grads)
    (hlen : ∀ g ∈ grads, g.length = L) :
    mergeWorkerAccumulators L chunks = accumulateGrads L grads := by
  subst hjoin
  exact mergeWorker_go L chunks (zeros L) (by simp [zeros]) hlen

theorem gradient_merge_equivalence_witness :
    ([[[(1 : ℚ), 2], [3, 4]], [[5, 6]]] : List (List (List ℚ))).flatten
        = [[(1 : ℚ), 2], [3, 4], [5, 6]] ∧
    (∀ g ∈ ([[(1 : ℚ), 2], [3, 4], [5, 6]] : List (List ℚ)), g.length = 2) ∧
    mergeWorkerAccumulators 2 [[[(1 : ℚ), 2], [3, 4]], [[5, 6]]]
      = accumulateGrads 2 [[(1 : ℚ), 2], [3, 4], [5, 6]] :=
  ⟨rfl, by decide,
    gradient_merge_equivalence 2 [[[(1 : ℚ), 2], [3, 4]], [[5, 6]]]
      [[(1 : ℚ), 2], [3, 4], [5, 6]] rfl (by decide)⟩

end NNCLI
